import Mathlib

/-!
Verification of the ARGOS retrieval-augmented answering pipeline against its
natural-language specification.

The Python sources are shallowly embedded: strings are `List Char`, floats
whose values are exact decimal constants are `ℚ`, Python `dict.get` defaults
are `Option.getD`, and each service endpoint's fallible validation is an
`Option`-returning function.  Python's `str.lower` is modelled by
`Char.toLower` (the corpus and all claims are ASCII; the Unicode special
cases of `str.lower` are outside every claim's scope).
-/

namespace Argos

/-- Whitespace characters recognised by Python's `str.split()` (ASCII range). -/
def isPyWs (c : Char) : Bool :=
  c = ' ' || c = '\t' || c = '\n' || c = '\r' || c = Char.ofNat 11 || c = Char.ofNat 12

/-- Lowercase a text, character by character, mirroring `str.lower`. -/
def lowerL (s : List Char) : List Char :=
  s.map Char.toLower

/-- Accumulator pass for `pyTokenize`: split on runs of whitespace. -/
def splitWsAux : List Char → List Char → List (List Char)
  | [], acc => if acc.isEmpty then [] else [acc.reverse]
  | c :: rest, acc =>
    if isPyWs c then
      if acc.isEmpty then splitWsAux rest []
      else acc.reverse :: splitWsAux rest []
    else splitWsAux rest (c :: acc)

/-- Python `str.split()` with no separator: tokens between whitespace runs,
no empty tokens, leading and trailing whitespace ignored. -/
def pyTokenize (s : List Char) : List (List Char) :=
  splitWsAux s []

/-- Python's `needle in hay` substring test on strings. -/
def containsSub (needle : List Char) : List Char → Bool
  | [] => needle.isEmpty
  | c :: rest => needle.isPrefixOf (c :: rest) || containsSub needle rest

/-- Python truthiness of the token-set intersection test
`set(a.split()) & set(b.split()) != set()` (only emptiness of the
intersection matters, so sets are not materialised). -/
def tokensIntersect (a b : List Char) : Bool :=
  (pyTokenize a).any (fun t => (pyTokenize b).contains t)

/-! ## Verifier service (`src/services/verifier/main.py`, `verify`) -/

namespace Verifier

/-- Verifier response body: label, confidence and unsupported spans. -/
structure VerifyResult where
  label : String
  confidence : ℚ
  unsupported_spans : List (Nat × Nat)
  deriving Repr, DecidableEq

/-- The evidence loop of `verify`: starting from the running
(label, confidence) state, scan the evidence texts in order; a substring
match returns `entailed`/0.9 immediately, a token-set intersection sets the
state to `weak`/0.5 and continues. -/
def verifyLoop (sentLower : List Char) : List (List Char) → String × ℚ → String × ℚ
  | [], st => st
  | e :: rest, st =>
    let text := lowerL e
    if containsSub sentLower text then ("entailed", 9/10)
    else
      let st' := if tokensIntersect sentLower text then ("weak", 1/2) else st
      verifyLoop sentLower rest st'

/-- `POST /v1/verify`: `none` models the 400 response for an empty sentence
or empty evidence list; otherwise the heuristic label is computed by
`verifyLoop` from the initial `unsupported`/0.1 state, and the unsupported
spans are empty exactly for the `entailed` label, else the single
full-sentence span. -/
def verify (sentence : List Char) (evidence : List (List Char)) : Option VerifyResult :=
  if sentence.isEmpty || evidence.isEmpty then none
  else
    let sl := lowerL sentence
    let lc := verifyLoop sl evidence ("unsupported", 1/10)
    some { label := lc.1, confidence := lc.2,
           unsupported_spans := if lc.1 = "entailed" then [] else [(0, sentence.length)] }

/-- An entailed (substring) match anywhere in the evidence makes the loop
return `entailed`/0.9, whatever state it carried into that point. -/
theorem verifyLoop_entailed (sl : List Char) :
    ∀ (ev : List (List Char)) (st : String × ℚ),
      (∃ e ∈ ev, containsSub sl (lowerL e)) →
      verifyLoop sl ev st = ("entailed", 9/10)
  | [], _, h => by simp at h
  | e :: rest, st, h => by
    cases he : containsSub sl (lowerL e) with
    | true => simp [verifyLoop, he]
    | false =>
      have hrest : ∃ x ∈ rest, containsSub sl (lowerL x) := by
        rcases h with ⟨x, hx, hcs⟩
        rcases List.mem_cons.mp hx with rfl | hx'
        · rw [he] at hcs; exact absurd hcs (by simp)
        · exact ⟨x, hx', hcs⟩
      simp only [verifyLoop, he, Bool.false_eq_true, if_false]
      exact verifyLoop_entailed sl rest _ hrest

/-- With no entailed match anywhere, the loop returns `weak`/0.5 when some
evidence item's token set intersects the sentence's, and otherwise leaves
the incoming state unchanged. -/
theorem verifyLoop_no_entail (sl : List Char) :
    ∀ (ev : List (List Char)) (st : String × ℚ),
      (∀ e ∈ ev, ¬ containsSub sl (lowerL e)) →
      verifyLoop sl ev st =
        if ev.any (fun e => tokensIntersect sl (lowerL e)) then ("weak", 1/2) else st
  | [], st, _ => by simp [verifyLoop]
  | e :: rest, st, h => by
    have he : ¬ containsSub sl (lowerL e) = true := h e (List.mem_cons_self e rest)
    have hrest : ∀ x ∈ rest, ¬ containsSub sl (lowerL x) := fun x hx =>
      h x (List.mem_cons_of_mem e hx)
    rw [Bool.not_eq_true] at he
    cases hw : tokensIntersect sl (lowerL e) with
    | true =>
      simp only [verifyLoop, he, Bool.false_eq_true, if_false, hw, if_true,
        List.any_cons, Bool.true_or]
      rw [verifyLoop_no_entail sl rest _ hrest]
      by_cases hrw : rest.any (fun x => tokensIntersect sl (lowerL x)) = true <;>
        simp [hrw]
    | false =>
      simp only [verifyLoop, he, Bool.false_eq_true, if_false, hw,
        List.any_cons, Bool.false_or]
      exact verifyLoop_no_entail sl rest _ hrest

/-- Claim C1: for a non-empty sentence and non-empty evidence list,
`/v1/verify` returns `entailed`/0.9 with no unsupported spans when the
lowercased sentence is a substring of some evidence item's lowercased text
(an entailed match at any position wins over earlier weak matches);
otherwise `weak`/0.5 when some lowercased token sets intersect; otherwise
`unsupported`/0.1; non-entailed labels carry the single full-sentence span. -/
theorem C1_verify_decision (s : List Char) (ev : List (List Char))
    (hs : s ≠ []) (hev : ev ≠ []) :
    verify s ev = some (
      if ev.any (fun e => containsSub (lowerL s) (lowerL e)) then
        ⟨"entailed", 9/10, []⟩
      else if ev.any (fun e => tokensIntersect (lowerL s) (lowerL e)) then
        ⟨"weak", 1/2, [(0, s.length)]⟩
      else
        ⟨"unsupported", 1/10, [(0, s.length)]⟩) := by
  have hse : s.isEmpty = false := by simpa [List.isEmpty_iff] using hs
  have heve : ev.isEmpty = false := by simpa [List.isEmpty_iff] using hev
  unfold verify
  simp only [hse, heve, Bool.or_self, Bool.false_eq_true, if_false]
  by_cases hent : ev.any (fun e => containsSub (lowerL s) (lowerL e))
  · rcases List.any_eq_true.mp hent with ⟨e, he, hcs⟩
    rw [verifyLoop_entailed (lowerL s) ev _ ⟨e, he, hcs⟩]
    simp [hent]
  · have hall : ∀ e ∈ ev, ¬ containsSub (lowerL s) (lowerL e) := by
      intro e he hc
      exact hent (List.any_eq_true.mpr ⟨e, he, hc⟩)
    rw [verifyLoop_no_entail (lowerL s) ev _ hall]
    by_cases hw : ev.any (fun e => tokensIntersect (lowerL s) (lowerL e)) <;>
      simp [hw, hent]

/-- Witness for C1: a verbatim substring match is entailed with confidence
0.9 and no unsupported spans. -/
theorem C1_verify_decision_witness :
    "the sky is blue.".toList ≠ [] ∧
    ["we know the sky is blue. indeed".toList] ≠ ([] : List (List Char)) ∧
    verify "the sky is blue.".toList ["we know the sky is blue. indeed".toList] =
      some ⟨"entailed", 9/10, []⟩ := by
  refine ⟨by decide, by decide, ?_⟩
  rw [C1_verify_decision "the sky is blue.".toList ["we know the sky is blue. indeed".toList]
    (by decide) (by decide)]
  have hA : (["we know the sky is blue. indeed".toList].any
      (fun e => containsSub (lowerL "the sky is blue.".toList) (lowerL e))) = true := by
    decide
  simp only [hA, if_true]

/-- Claim C10: in every accepted `/v1/verify` response the unsupported-spans
list is empty exactly when the label is `entailed`, and any non-entailed
label (in particular `weak`) carries the single full-sentence span. -/
theorem C10_spans_empty_iff_entailed (s : List Char) (ev : List (List Char))
    (r : VerifyResult) (h : verify s ev = some r) :
    (r.unsupported_spans = [] ↔ r.label = "entailed") ∧
    (r.label ≠ "entailed" → r.unsupported_spans = [(0, s.length)]) := by
  unfold verify at h
  by_cases hg : s.isEmpty || ev.isEmpty
  · rw [if_pos hg] at h; exact absurd h (by simp)
  · rw [if_neg hg] at h
    have hr : r = ⟨(verifyLoop (lowerL s) ev ("unsupported", 1/10)).1,
        (verifyLoop (lowerL s) ev ("unsupported", 1/10)).2,
        if (verifyLoop (lowerL s) ev ("unsupported", 1/10)).1 = "entailed" then []
        else [(0, s.length)]⟩ := by
      exact (Option.some_injective _ h.symm)
    subst hr
    by_cases hl : (verifyLoop (lowerL s) ev ("unsupported", 1/10)).1 = "entailed"
    · simp [hl]
    · simp [hl]

/-- Witness for C10: a weak result (token overlap only) carries the single
full-sentence unsupported span. -/
theorem C10_spans_empty_iff_entailed_witness :
    verify "the moon is purple.".toList ["the sky is blue.".toList] =
      some ⟨"weak", 1/2, [(0, 19)]⟩ ∧
    (([(0, 19)] : List (Nat × Nat)) = [] ↔ "weak" = "entailed") ∧
    ("weak" ≠ "entailed" → ([(0, 19)] : List (Nat × Nat)) = [(0, "the moon is purple.".toList.length)]) := by
  refine ⟨by rfl, ?_⟩
  exact C10_spans_empty_iff_entailed "the moon is purple.".toList
    ["the sky is blue.".toList] ⟨"weak", 1/2, [(0, 19)]⟩ (by rfl)

end Verifier

/-! ## Retrieval engine (`src/services/retriever/retriever.py`, `SimpleRetriever.search`) -/

namespace Retriever

/-- A corpus document (`Document` dataclass). -/
structure Document where
  source_id : String
  title : String
  url : String
  content : String
  deriving Repr, DecidableEq

/-- The `Document.tokens` property: the set of lowercased whitespace tokens
of the content (a Python `set`; only membership and cardinality are used, so
it is modelled as a deduplicated list). -/
def Document.tokens (d : Document) : List (List Char) :=
  (pyTokenize (lowerL d.content.toList)).dedup

/-- The query token set `set(query.lower().split())`. -/
def queryTokens (q : List Char) : List (List Char) :=
  (pyTokenize (lowerL q)).dedup

/-- `SimpleRetriever._score`: the fraction of distinct query tokens present
in the document's token set, and 0.0 for a token-free query. -/
def score (docTokens qToks : List (List Char)) : ℚ :=
  if qToks.isEmpty then 0
  else ((qToks.filter (fun t => docTokens.contains t)).length : ℚ) / (qToks.length : ℚ)

/-- The scored-candidate list built by the loop in `search`: documents in
corpus order, keeping only positive scores. -/
def candidates (docs : List Document) (q : List Char) : List (Document × ℚ) :=
  docs.filterMap (fun d =>
    let s := score d.tokens (queryTokens q)
    if 0 < s then some (d, s) else none)

/-- Comparator for the stable descending sort `scores.sort(key=score, reverse=True)`. -/
def scoreDescLE (a b : Document × ℚ) : Bool :=
  decide (b.2 ≤ a.2)

/-- `SimpleRetriever.search`: positive-scoring documents stably sorted by
descending score and truncated to `top_k`; if none scored, the first
`top_k` corpus documents with score 0.0. -/
def search (docs : List Document) (q : List Char) (top_k : Nat) : List (Document × ℚ) :=
  let c := candidates docs q
  if c.isEmpty then (docs.take top_k).map (fun d => (d, (0 : ℚ)))
  else (c.mergeSort scoreDescLE).take top_k

theorem score_nonneg (dt qt : List (List Char)) : 0 ≤ score dt qt := by
  unfold score
  split
  · exact le_refl 0
  · positivity

theorem mem_candidates {docs : List Document} {q : List Char} {p : Document × ℚ}
    (h : p ∈ candidates docs q) :
    p.1 ∈ docs ∧ p.2 = score p.1.tokens (queryTokens q) ∧ 0 < p.2 := by
  rcases List.mem_filterMap.mp h with ⟨d, hd, hf⟩
  by_cases hs : 0 < score d.tokens (queryTokens q)
  · simp only [if_pos hs] at hf
    cases hf
    exact ⟨hd, rfl, hs⟩
  · simp only [if_neg hs] at hf
    exact absurd hf (by simp)

theorem candidates_eq_nil {docs : List Document} {q : List Char}
    (h : candidates docs q = []) :
    ∀ d ∈ docs, score d.tokens (queryTokens q) = 0 := by
  intro d hd
  have hnone := List.filterMap_eq_nil_iff.mp h d hd
  by_cases hs : 0 < score d.tokens (queryTokens q)
  · simp only [if_pos hs] at hnone
    exact absurd hnone (by simp)
  · exact le_antisymm (not_lt.mp hs) (score_nonneg _ _)

theorem scoreDescLE_trans (a b c : Document × ℚ)
    (hab : scoreDescLE a b) (hbc : scoreDescLE b c) : scoreDescLE a c := by
  simp only [scoreDescLE, decide_eq_true_eq] at *
  exact le_trans hbc hab

theorem scoreDescLE_total (a b : Document × ℚ) : scoreDescLE a b || scoreDescLE b a := by
  simp only [scoreDescLE, Bool.or_eq_true, decide_eq_true_eq]
  exact le_total b.2 a.2

/-- Claim C2: `search` scores every returned document by the token-overlap
fraction, keeps only positive scores (stably sorted by descending score,
ties in corpus order, truncated to `top_k`), falls back to the first
`top_k` corpus documents with score 0.0 when nothing scores positively, and
never returns an empty list for a non-empty corpus with `top_k` at least 1. -/
theorem C2_search_spec (docs : List Document) (q : List Char) (top_k : Nat) :
    (∀ p ∈ search docs q top_k, p.2 = score p.1.tokens (queryTokens q) ∧ p.1 ∈ docs) ∧
    (candidates docs q ≠ [] →
      ∃ o : List (Document × ℚ),
        o.Perm (candidates docs q) ∧
        o.Pairwise (fun a b => b.2 ≤ a.2) ∧
        (∀ a b : Document × ℚ, a.2 = b.2 → [a, b].Sublist (candidates docs q) →
          [a, b].Sublist o) ∧
        search docs q top_k = o.take top_k ∧
        (∀ p ∈ o, 0 < p.2)) ∧
    (candidates docs q = [] →
      (∀ d ∈ docs, score d.tokens (queryTokens q) = 0) ∧
      search docs q top_k = (docs.take top_k).map (fun d => (d, (0 : ℚ)))) ∧
    (search docs q top_k).length ≤ top_k ∧
    (docs ≠ [] → 1 ≤ top_k → search docs q top_k ≠ []) := by
  refine ⟨?_, ?_, ?_, ?_, ?_⟩
  · intro p hp
    unfold search at hp
    by_cases hc : (candidates docs q).isEmpty
    · rw [if_pos hc] at hp
      rcases List.mem_map.mp hp with ⟨d, hd, rfl⟩
      have hd' : d ∈ docs := List.take_subset _ _ hd
      have hz : score d.tokens (queryTokens q) = 0 :=
        candidates_eq_nil (List.isEmpty_iff.mp hc) d hd'
      exact ⟨hz.symm, hd'⟩
    · rw [if_neg hc] at hp
      have hp' : p ∈ (candidates docs q).mergeSort scoreDescLE :=
        List.take_subset _ _ hp
      have hpc : p ∈ candidates docs q := List.mem_mergeSort.mp hp'
      rcases mem_candidates hpc with ⟨h1, h2, _⟩
      exact ⟨h2, h1⟩
  · intro hne
    refine ⟨(candidates docs q).mergeSort scoreDescLE,
      List.mergeSort_perm _ _, ?_, ?_, ?_, ?_⟩
    · exact (List.sorted_mergeSort scoreDescLE_trans scoreDescLE_total
        (candidates docs q)).imp (fun h => of_decide_eq_true h)
    · intro a b hab hsub
      exact List.pair_sublist_mergeSort scoreDescLE_trans scoreDescLE_total
        (by simpa [scoreDescLE] using le_of_eq hab.symm) hsub
    · unfold search
      rw [if_neg (by simpa [List.isEmpty_iff] using hne)]
    · intro p hp
      exact (mem_candidates (List.mem_mergeSort.mp hp)).2.2
  · intro hc
    refine ⟨candidates_eq_nil hc, ?_⟩
    unfold search
    rw [if_pos (List.isEmpty_iff.mpr hc)]
  · unfold search
    by_cases hc : (candidates docs q).isEmpty
    · rw [if_pos hc, List.length_map]
      exact List.length_take_le _ _
    · rw [if_neg hc]
      exact List.length_take_le _ _
  · intro hdocs hk
    unfold search
    by_cases hc : (candidates docs q).isEmpty
    · rw [if_pos hc]
      intro hmap
      rcases List.map_eq_nil_iff.mp hmap with htake
      rcases List.take_eq_nil_iff.mp htake with h0 | h0
      · omega
      · exact hdocs h0
    · rw [if_neg hc]
      intro htake
      rcases List.take_eq_nil_iff.mp htake with h0 | h0
      · omega
      · have hlen : (candidates docs q).length = 0 := by
          have h1 := List.Perm.length_eq (List.mergeSort_perm (candidates docs q) scoreDescLE)
          rw [h0] at h1
          simpa using h1.symm
        have hnil : candidates docs q = [] := List.length_eq_zero.mp hlen
        rw [hnil] at hc
        simp at hc

/-- Witness for C2: a two-document corpus where one document shares a token
with the query yields a non-empty result. -/
theorem C2_search_spec_witness :
    ([⟨"d1", "t1", "http://a", "alpha beta"⟩,
      ⟨"d2", "t2", "http://b", "gamma delta"⟩] : List Document) ≠ [] ∧
    1 ≤ 3 ∧
    search [⟨"d1", "t1", "http://a", "alpha beta"⟩,
      ⟨"d2", "t2", "http://b", "gamma delta"⟩] "gamma query".toList 3 ≠ [] :=
  ⟨by simp, by decide,
    (C2_search_spec [⟨"d1", "t1", "http://a", "alpha beta"⟩,
      ⟨"d2", "t2", "http://b", "gamma delta"⟩] "gamma query".toList 3).2.2.2.2
      (by simp) (by decide)⟩

end Retriever

/-! ## Metrics library (`src/eval/metrics.py`) -/

namespace Metrics

/-- A sentence record as consumed by the metrics functions (`Sentence.dict()`
shape): `weight` and `confidence` are optional with Python `dict.get`
defaults 1.0 and 0.5, spans default to the empty list. -/
structure SentenceRec where
  text : List Char
  weight : Option ℚ
  confidence : Option ℚ
  unsupported_spans : List (Int × Int)
  deriving Repr, DecidableEq

/-- Python `text.find(token, offset)`: index of the first occurrence of
`token` at or after `offset` (with Python's negative-offset clamping), or
-1 when there is none. -/
def pyFindFrom (text token : List Char) (offset : Int) : Int :=
  let off : Nat := (max 0 (if offset < 0 then (text.length : Int) + offset else offset)).toNat
  match (List.range (text.length + 1)).find?
      (fun i => decide (off ≤ i) && token.isPrefixOf (text.drop i)) with
  | some i => (i : Int)
  | none => -1

/-- The span-assignment loop of `_span_token_indices`: each token's span is
the first occurrence of the token starting at the end of the previous
token's match. -/
def tokenSpansGo (text : List Char) : List (List Char) → Int → List (Int × Int)
  | [], _ => []
  | t :: ts, offset =>
    let start := pyFindFrom text t offset
    let e := start + (t.length : Int)
    (start, e) :: tokenSpansGo text ts e

/-- Character spans of the whitespace tokens of `text`, produced by the
first-occurrence-after-offset rule of `_span_token_indices`. -/
def tokenSpans (text : List Char) : List (Int × Int) :=
  tokenSpansGo text (pyTokenize text) 0

/-- The overlap test of `_span_token_indices`:
`start < span.end and end > span.start`. -/
def overlapB (ts span : Int × Int) : Bool :=
  decide (ts.1 < span.2) && decide (ts.2 > span.1)

/-- `_span_token_indices`: indices of the tokens whose span overlaps the
given span. -/
def spanTokenIndices (text : List Char) (span : Int × Int) : List Nat :=
  (((tokenSpans text).enum).filter (fun p => overlapB p.2 span)).map Prod.fst

/-- Number of distinct token indices covered by at least one unsupported
span (the `set` union accumulated by `support_weighted_accuracy` and
`calibration_error`). -/
def unsupportedTokenCount (text : List Char) (spans : List (Int × Int)) : Nat :=
  ((spans.map (spanTokenIndices text)).flatten).dedup.length

/-- The claim's per-token reading of the same count: a token counts as
unsupported exactly when its span overlaps some unsupported span, counted
at most once however many spans overlap it. -/
def specUnsupportedCount (text : List Char) (spans : List (Int × Int)) : Nat :=
  (((tokenSpans text).enum).filter (fun p => spans.any (fun sp => overlapB p.2 sp))).length

theorem enum_nodup {α : Type} (l : List α) : l.enum.Nodup := by
  have h : (l.enum.map Prod.fst).Nodup := by
    rw [List.enum_map_fst]
    exact List.nodup_range _
  exact h.of_map

/-- The union of the per-span token-index sets has exactly one element per
token overlapping some span. -/
theorem unsupportedTokenCount_eq (text : List Char) (spans : List (Int × Int)) :
    unsupportedTokenCount text spans = specUnsupportedCount text spans := by
  classical
  set L := (tokenSpans text).enum with hL
  have hLnd : L.Nodup := enum_nodup _
  have hfst : (L.map Prod.fst).Nodup := by
    rw [hL, List.enum_map_fst]
    exact List.nodup_range _
  have hfilt : ((L.filter (fun p => spans.any (fun sp => overlapB p.2 sp))).map Prod.fst).Nodup :=
    hfst.sublist ((List.filter_sublist _).map Prod.fst)
  have hsets :
      ((spans.map (spanTokenIndices text)).flatten).toFinset =
      ((L.filter (fun p => spans.any (fun sp => overlapB p.2 sp))).map Prod.fst).toFinset := by
    ext i
    simp only [List.mem_toFinset, List.mem_flatten, List.mem_map, List.mem_filter,
      spanTokenIndices, List.any_eq_true, ← hL]
    constructor
    · rintro ⟨l', ⟨sp, hsp, rfl⟩, hi⟩
      rcases List.mem_map.mp hi with ⟨p, hp, rfl⟩
      rcases List.mem_filter.mp hp with ⟨hpL, hQ⟩
      exact ⟨p, ⟨hpL, sp, hsp, hQ⟩, rfl⟩
    · rintro ⟨p, ⟨hpL, sp, hsp, hQ⟩, rfl⟩
      exact ⟨(spanTokenIndices text sp), ⟨sp, hsp, rfl⟩, by
        simp only [spanTokenIndices, List.mem_map, ← hL]
        exact ⟨p, List.mem_filter.mpr ⟨hpL, hQ⟩, rfl⟩⟩
  calc ((spans.map (spanTokenIndices text)).flatten).dedup.length
      = ((spans.map (spanTokenIndices text)).flatten).toFinset.card :=
        (List.card_toFinset _).symm
    _ = ((L.filter (fun p => spans.any (fun sp => overlapB p.2 sp))).map Prod.fst).toFinset.card := by
        rw [hsets]
    _ = ((L.filter (fun p => spans.any (fun sp => overlapB p.2 sp))).map Prod.fst).dedup.length :=
        List.card_toFinset _
    _ = ((L.filter (fun p => spans.any (fun sp => overlapB p.2 sp))).map Prod.fst).length := by
        rw [hfilt.dedup]
    _ = (L.filter (fun p => spans.any (fun sp => overlapB p.2 sp))).length :=
        List.length_map _ _
    _ = specUnsupportedCount text spans := by rw [hL, specUnsupportedCount]

/-- Weight with the `dict.get` default 1.0. -/
def sentWeight (s : SentenceRec) : ℚ :=
  s.weight.getD 1

/-- Token count of a sentence (`_tokenize` length). -/
def sentTotal (s : SentenceRec) : Nat :=
  (pyTokenize s.text).length

/-- `support_weighted_accuracy`: weighted supported-token fraction, 0.0 when
the weighted token total is zero. -/
def support_weighted_accuracy (sentences : List SentenceRec) : ℚ :=
  let num := (sentences.map (fun s =>
    sentWeight s * ((sentTotal s : ℚ) - (unsupportedTokenCount s.text s.unsupported_spans : ℚ)))).sum
  let den := (sentences.map (fun s => sentWeight s * (sentTotal s : ℚ))).sum
  if den = 0 then 0 else num / den

/-- Claim C3: SWA equals the weighted sum of supported token counts over the
weighted sum of total token counts (0.0 when the denominator is zero),
where a token is unsupported exactly when its span, produced by the
first-occurrence-after-offset search, overlaps some unsupported span
(`start < span.end` and `end > span.start`), counted at most once. -/
theorem C3_swa_formula (sentences : List SentenceRec) :
    support_weighted_accuracy sentences =
      if (sentences.map (fun s => sentWeight s * (sentTotal s : ℚ))).sum = 0 then 0
      else
        (sentences.map (fun s => sentWeight s *
          ((sentTotal s : ℚ) - (specUnsupportedCount s.text s.unsupported_spans : ℚ)))).sum /
        (sentences.map (fun s => sentWeight s * (sentTotal s : ℚ))).sum := by
  simp only [support_weighted_accuracy, unsupportedTokenCount_eq]

/-- Python `int()` truncation toward zero on a rational. -/
def pyInt (q : ℚ) : Int :=
  if q < 0 then ⌈q⌉ else ⌊q⌋

/-- Python list indexing into a length-`nb` list: negative indices wrap once.
(For an index below `-nb` Python raises IndexError; such an index needs a
confidence at or below `-1`, outside every claim's scope, and is modelled
here as a plain wrap.) -/
def pyIndex (nb : Nat) (i : Int) : Int :=
  if i < 0 then i + nb else i

/-- The three per-bucket accumulator arrays of `calibration_error`. -/
structure Buckets where
  totals : Int → Nat
  supports : Int → ℚ
  confs : Int → ℚ

def emptyBuckets : Buckets :=
  ⟨fun _ => 0, fun _ => 0, fun _ => 0⟩

def bumpN (f : Int → Nat) (j : Int) : Int → Nat :=
  fun k => if k = j then f k + 1 else f k

def bumpQ (f : Int → ℚ) (j : Int) (v : ℚ) : Int → ℚ :=
  fun k => if k = j then f k + v else f k

/-- Support fraction of a sentence: supported tokens over total tokens. -/
def supportFrac (s : SentenceRec) : ℚ :=
  ((sentTotal s : ℚ) - (unsupportedTokenCount s.text s.unsupported_spans : ℚ)) / (sentTotal s : ℚ)

/-- One iteration of the sentence loop of `calibration_error`: skip
token-free sentences, otherwise add the sentence's count, support fraction
and confidence to its confidence bucket
`min(int(conf * num_buckets), num_buckets - 1)`. -/
def bucketStep (nb : Nat) (st : Buckets) (s : SentenceRec) : Buckets :=
  let conf := s.confidence.getD (1/2)
  let idx : Int := min (pyInt (conf * (nb : ℚ))) ((nb : Int) - 1)
  let j := pyIndex nb idx
  if sentTotal s = 0 then st
  else
    ⟨bumpN st.totals j, bumpQ st.supports j (supportFrac s), bumpQ st.confs j conf⟩

/-- `calibration_error`: bucket the sentences by confidence, then sum the
bucket-weighted absolute gaps between average confidence and average
support; 0.0 when no sentence has tokens. -/
def calibration_error (sentences : List SentenceRec) (num_buckets : Nat) : ℚ :=
  let st := sentences.foldl (bucketStep num_buckets) emptyBuckets
  let total_sentences := ((List.range num_buckets).map (fun i => st.totals (Int.ofNat i))).sum
  if total_sentences = 0 then 0
  else ((List.range num_buckets).map (fun i =>
    if st.totals (Int.ofNat i) = 0 then 0
    else ((st.totals (Int.ofNat i) : ℚ) / (total_sentences : ℚ)) *
      |st.confs (Int.ofNat i) / (st.totals (Int.ofNat i) : ℚ) -
       st.supports (Int.ofNat i) / (st.totals (Int.ofNat i) : ℚ)|)).sum

/-- The claim's reading of single-bucket ECE, written from its words: the
absolute difference between the mean confidence (default 0.5) and the mean
support fraction, both means over all sentences, and 0.0 on the empty
list.  (The claim assigns no support fraction to a token-free sentence;
`supportFrac` reads 0/0 there, which is 0 in `ℚ`.) -/
def specECE1 (sentences : List SentenceRec) : ℚ :=
  if sentences = [] then 0
  else |(sentences.map (fun s => s.confidence.getD (1/2))).sum / (sentences.length : ℚ) -
        (sentences.map supportFrac).sum / (sentences.length : ℚ)|

/-- With a single bucket, every token-bearing sentence with nonnegative
confidence lands in bucket 0, so the fold accumulates the count, the
support-fraction sum and the confidence sum of the token-bearing sentences. -/
theorem foldl_bucketStep_one (sentences : List SentenceRec) :
    ∀ st : Buckets,
      (∀ s ∈ sentences, 0 ≤ s.confidence.getD (1/2)) →
      ((sentences.foldl (bucketStep 1) st).totals 0 =
          st.totals 0 + (sentences.filter (fun s => sentTotal s ≠ 0)).length ∧
       (sentences.foldl (bucketStep 1) st).supports 0 =
          st.supports 0 + ((sentences.filter (fun s => sentTotal s ≠ 0)).map supportFrac).sum ∧
       (sentences.foldl (bucketStep 1) st).confs 0 =
          st.confs 0 + ((sentences.filter (fun s => sentTotal s ≠ 0)).map
            (fun s => s.confidence.getD (1/2))).sum) := by
  induction sentences with
  | nil => intro st _; simp
  | cons s rest ih =>
    intro st hconf
    have hs : 0 ≤ s.confidence.getD (1/2) := hconf s (List.mem_cons_self _ _)
    have hrest : ∀ x ∈ rest, 0 ≤ x.confidence.getD (1/2) := fun x hx =>
      hconf x (List.mem_cons_of_mem _ hx)
    have hj : pyIndex 1 (min (pyInt (s.confidence.getD (1/2) * ((1 : Nat) : ℚ)))
        (((1 : Nat) : Int) - 1)) = 0 := by
      have h1 : (s.confidence.getD (1/2) * ((1 : Nat) : ℚ)) = s.confidence.getD (1/2) := by
        push_cast; ring
      have h2 : 0 ≤ pyInt (s.confidence.getD (1/2)) := by
        unfold pyInt
        rw [if_neg (not_lt.mpr hs)]
        exact Int.floor_nonneg.mpr hs
      rw [h1]
      have h3 : min (pyInt (s.confidence.getD (1/2))) (((1 : Nat) : Int) - 1) = 0 := by
        simp only [Nat.cast_one]
        omega
      rw [h3]
      unfold pyIndex
      norm_num
    by_cases ht : sentTotal s = 0
    · have hstep : bucketStep 1 st s = st := by
        unfold bucketStep
        rw [if_pos ht]
      rw [List.foldl_cons, hstep]
      have := ih st hrest
      simpa [List.filter_cons, ht] using this
    · have hstep : bucketStep 1 st s =
          ⟨bumpN st.totals 0, bumpQ st.supports 0 (supportFrac s),
           bumpQ st.confs 0 (s.confidence.getD (1/2))⟩ := by
        unfold bucketStep
        rw [if_neg ht]
        rw [hj]
      rw [List.foldl_cons, hstep]
      rcases ih ⟨bumpN st.totals 0, bumpQ st.supports 0 (supportFrac s),
        bumpQ st.confs 0 (s.confidence.getD (1/2))⟩ hrest with ⟨h1, h2, h3⟩
      refine ⟨?_, ?_, ?_⟩
      · rw [h1]
        simp [bumpN, List.filter_cons, ht]
        omega
      · rw [h2]
        simp [bumpQ, List.filter_cons, ht]
        ring
      · rw [h3]
        simp [bumpQ, List.filter_cons, ht]
        ring

/-- Counterexample to claim C7 as stated: on a list holding one token-free
sentence (confidence 0.9) and one one-token fully supported sentence
(confidence 0.5), `calibration_error` with one bucket skips the token-free
sentence and returns 0.5, while the claimed value — means over ALL
sentences — is 0.2 (and no value of the token-free sentence's undefined
support fraction inside [0,1] can reconcile the two). -/
theorem C7_counterexample :
    calibration_error
      [⟨"".toList, none, some (9/10), []⟩, ⟨"a".toList, none, some (1/2), []⟩] 1 ≠
    specECE1
      [⟨"".toList, none, some (9/10), []⟩, ⟨"a".toList, none, some (1/2), []⟩] := by
  have hs1 : sentTotal (⟨"".toList, none, some (9/10), []⟩ : SentenceRec) = 0 := rfl
  have hs2 : sentTotal (⟨"a".toList, none, some (1/2), []⟩ : SentenceRec) = 1 := rfl
  have hu2 : unsupportedTokenCount "a".toList [] = 0 := rfl
  have hf2 : supportFrac (⟨"a".toList, none, some (1/2), []⟩ : SentenceRec) = 1 := by
    unfold supportFrac
    rw [hs2, hu2]
    norm_num
  have hf1 : supportFrac (⟨"".toList, none, some (9/10), []⟩ : SentenceRec) = 0 := by
    unfold supportFrac
    rw [hs1]
    norm_num
  have hfloor : pyInt ((1 : ℚ)/2 * ((1 : Nat) : ℚ)) = 0 := by
    unfold pyInt
    rw [if_neg (by norm_num)]
    rw [show (1 : ℚ)/2 * ((1 : Nat) : ℚ) = 1/2 by push_cast; ring]
    rw [Int.floor_eq_zero_iff.mpr (by constructor <;> norm_num)]
  have hstep1 : bucketStep 1 emptyBuckets ⟨"".toList, none, some (9/10), []⟩ = emptyBuckets := by
    simp only [bucketStep, hs1, if_true, reduceIte]
  have hstep2 : bucketStep 1 emptyBuckets ⟨"a".toList, none, some (1/2), []⟩ =
      ⟨bumpN emptyBuckets.totals 0, bumpQ emptyBuckets.supports 0 1,
       bumpQ emptyBuckets.confs 0 (1/2)⟩ := by
    simp only [bucketStep, hs2, hf2]
    rw [if_neg (by norm_num)]
    have hj : pyIndex 1 (min (pyInt ((Option.some ((1:ℚ)/2)).getD (1/2) * ((1 : Nat) : ℚ)))
        (((1 : Nat) : Int) - 1)) = 0 := by
      simp only [Option.getD_some]
      rw [hfloor]
      simp [pyIndex]
    simp only [Option.getD_some] at hj ⊢
    rw [hj]
  have hL : calibration_error
      [⟨"".toList, none, some (9/10), []⟩, ⟨"a".toList, none, some (1/2), []⟩] 1 = 1/2 := by
    unfold calibration_error
    rw [List.foldl_cons, hstep1, List.foldl_cons, hstep2, List.foldl_nil]
    have hr : List.range 1 = [0] := rfl
    rw [hr]
    simp only [List.map_cons, List.map_nil, List.sum_cons, List.sum_nil, add_zero]
    have ht0 : bumpN emptyBuckets.totals 0 (Int.ofNat 0) = 1 := rfl
    have hsupp : bumpQ emptyBuckets.supports 0 1 (Int.ofNat 0) = 1 := by
      simp [bumpQ, emptyBuckets]
    have hconf : bumpQ emptyBuckets.confs 0 (1/2) (Int.ofNat 0) = 1/2 := by
      simp [bumpQ, emptyBuckets]
    rw [ht0, hsupp, hconf]
    norm_num
  have hR : specECE1
      [⟨"".toList, none, some (9/10), []⟩, ⟨"a".toList, none, some (1/2), []⟩] = 1/5 := by
    unfold specECE1
    rw [if_neg (by simp)]
    simp only [List.map_cons, List.map_nil, List.sum_cons, List.sum_nil,
      Option.getD_some, hf1, hf2, List.length_cons, List.length_nil]
    norm_num
  rw [hL, hR]
  norm_num

/-- Claim C7, amended: with `num_buckets = 1` and every confidence (after
the 0.5 default) nonnegative, `calibration_error` equals the absolute
difference between the mean confidence and the mean support fraction of
the sentences WITH AT LEAST ONE TOKEN, and is 0.0 when no sentence has a
token (in particular on the empty list). -/
theorem C7_ece_one_bucket (sentences : List SentenceRec)
    (hconf : ∀ s ∈ sentences, 0 ≤ s.confidence.getD (1/2)) :
    calibration_error sentences 1 =
      if (sentences.filter (fun s => sentTotal s ≠ 0)).length = 0 then 0
      else
        |((sentences.filter (fun s => sentTotal s ≠ 0)).map
            (fun s => s.confidence.getD (1/2))).sum /
              (((sentences.filter (fun s => sentTotal s ≠ 0)).length : ℚ)) -
         ((sentences.filter (fun s => sentTotal s ≠ 0)).map supportFrac).sum /
              (((sentences.filter (fun s => sentTotal s ≠ 0)).length : ℚ))| := by
  rcases foldl_bucketStep_one sentences emptyBuckets hconf with ⟨h1, h2, h3⟩
  have he : emptyBuckets.totals 0 = 0 := rfl
  have hes : emptyBuckets.supports 0 = 0 := rfl
  have hec : emptyBuckets.confs 0 = 0 := rfl
  unfold calibration_error
  have hr : List.range 1 = [0] := rfl
  rw [hr]
  simp only [List.map_cons, List.map_nil, List.sum_cons, List.sum_nil, add_zero]
  have h00 : Int.ofNat 0 = (0 : Int) := rfl
  rw [h00, h1, h2, h3, he, hes, hec, zero_add, zero_add, zero_add]
  set n := (sentences.filter (fun s => sentTotal s ≠ 0)).length with hn
  by_cases h0 : n = 0
  · rw [if_pos h0, if_pos h0]
  · rw [if_neg h0, if_neg h0, if_neg h0]
    have hnq : ((n : ℚ)) ≠ 0 := Nat.cast_ne_zero.mpr h0
    rw [div_self hnq, one_mul]

/-- Witness for C7's amended theorem: one sentence, two tokens, one covered
by an unsupported span, confidence 0.75. -/
theorem C7_ece_one_bucket_witness :
    (∀ s ∈ [(⟨"a b".toList, none, some (3/4), [(0, 1)]⟩ : SentenceRec)],
      0 ≤ s.confidence.getD (1/2)) ∧
    calibration_error [⟨"a b".toList, none, some (3/4), [(0, 1)]⟩] 1 =
      if ([(⟨"a b".toList, none, some (3/4), [(0, 1)]⟩ : SentenceRec)].filter
            (fun s => sentTotal s ≠ 0)).length = 0 then 0
      else
        |(([(⟨"a b".toList, none, some (3/4), [(0, 1)]⟩ : SentenceRec)].filter
            (fun s => sentTotal s ≠ 0)).map (fun s => s.confidence.getD (1/2))).sum /
              ((([(⟨"a b".toList, none, some (3/4), [(0, 1)]⟩ : SentenceRec)].filter
                (fun s => sentTotal s ≠ 0)).length : ℚ)) -
         (([(⟨"a b".toList, none, some (3/4), [(0, 1)]⟩ : SentenceRec)].filter
            (fun s => sentTotal s ≠ 0)).map supportFrac).sum /
              ((([(⟨"a b".toList, none, some (3/4), [(0, 1)]⟩ : SentenceRec)].filter
                (fun s => sentTotal s ≠ 0)).length : ℚ))| := by
  constructor
  · intro s hs
    rcases List.mem_singleton.mp hs with rfl
    norm_num
  · exact C7_ece_one_bucket [⟨"a b".toList, none, some (3/4), [(0, 1)]⟩]
      (by intro s hs; rcases List.mem_singleton.mp hs with rfl; norm_num)

end Metrics

/-! ## Shared contracts (`src/shared/schemas.py`) -/

namespace Schemas

/-- The `SentenceVerifierResult.label` validation pattern
`^(entailed|weak|unsupported|contradicted)$`. -/
def sentenceVerifierLabelOk (l : String) : Bool :=
  l == "entailed" || l == "weak" || l == "unsupported" || l == "contradicted"

/-- The `VerifierResponse.label` validation pattern
`^(entailed|unsupported|contradicted)$`. -/
def verifierResponseLabelOk (l : String) : Bool :=
  l == "entailed" || l == "unsupported" || l == "contradicted"

/-- Counterexample to claim C9 as stated: the two shared models do not
accept the same label set — `weak` validates in `SentenceVerifierResult`
but is rejected by `VerifierResponse`'s pattern. -/
theorem C9_label_mismatch :
    sentenceVerifierLabelOk "weak" = true ∧ verifierResponseLabelOk "weak" = false := by
  decide

/-- Claim C9, amended: `SentenceVerifierResult` accepts exactly
{entailed, weak, unsupported, contradicted}, while `VerifierResponse`
accepts exactly {entailed, unsupported, contradicted} — the response
contract omits `weak` (a label the verifier service does emit), and any
string outside these sets is rejected by both. -/
theorem C9_label_sets (l : String) :
    (sentenceVerifierLabelOk l = true ↔
      l = "entailed" ∨ l = "weak" ∨ l = "unsupported" ∨ l = "contradicted") ∧
    (verifierResponseLabelOk l = true ↔
      l = "entailed" ∨ l = "unsupported" ∨ l = "contradicted") := by
  constructor <;>
    simp [sentenceVerifierLabelOk, verifierResponseLabelOk, Bool.or_eq_true, or_assoc]

/-- Witness for C9's amended theorem at the separating label `weak`. -/
theorem C9_label_sets_witness :
    (sentenceVerifierLabelOk "weak" = true ↔
      "weak" = "entailed" ∨ "weak" = "weak" ∨ "weak" = "unsupported" ∨
        "weak" = "contradicted") ∧
    (verifierResponseLabelOk "weak" = true ↔
      "weak" = "entailed" ∨ "weak" = "unsupported" ∨ "weak" = "contradicted") :=
  C9_label_sets "weak"

/-- Query execution modes (`Mode`). -/
inductive Mode
  | fast
  | strict
  deriving Repr, DecidableEq

/-- Parse the string value of the `mode` field. -/
def parseModeStr (s : String) : Option Mode :=
  if s == "fast" then some Mode.fast
  else if s == "strict" then some Mode.strict
  else none

/-- A validated `AnswerRequest`. -/
structure AnswerRequest where
  query : String
  mode : Mode
  top_k : Int
  trace_id : String
  deriving Repr, DecidableEq

/-- A raw `/v1/answer` JSON body: every field optional as received. -/
structure AnswerBody where
  query : Option String
  mode : Option String
  top_k : Option Int
  trace_id : Option String
  deriving Repr, DecidableEq

/-- Pydantic validation of `AnswerRequest`: `query` required, `mode`
defaults to `fast`, `top_k` defaults to 6 and must lie in [1, 10], and
`trace_id` is declared required with no default, so a body without it
fails validation (FastAPI responds 422 before the handler runs). -/
def parseAnswerRequest (b : AnswerBody) : Option AnswerRequest :=
  match b.query with
  | none => none
  | some q =>
    match (match b.mode with
           | none => some Mode.fast
           | some m => parseModeStr m) with
    | none => none
    | some md =>
      match (match b.top_k with
             | none => some (6 : Int)
             | some k => if 1 ≤ k ∧ k ≤ 10 then some k else none) with
      | none => none
      | some k =>
        match b.trace_id with
        | none => none
        | some t => some ⟨q, md, k, t⟩

/-- The handler's fallback `trace_id = request.trace_id or str(uuid.uuid4())`
(`main.py` line 125): the generated id is used only when the validated
`trace_id` is falsy, i.e. the empty string. -/
def effectiveTraceId (req : AnswerRequest) (fresh : String) : String :=
  if req.trace_id = "" then fresh else req.trace_id

/-- Claim C5 meets the code: a `/v1/answer` body that omits `trace_id` is
rejected by request validation (contradicting the claim), even though the
handler holds a fresh-id fallback that fires only for an empty-string
`trace_id`.  The generation intent exists in the handler but is
unreachable for an absent field. -/
theorem C5_trace_id_required :
    parseAnswerRequest ⟨some "what is argos", none, none, none⟩ = none ∧
    parseAnswerRequest ⟨some "what is argos", none, none, some ""⟩ =
      some ⟨"what is argos", Mode.fast, 6, ""⟩ ∧
    effectiveTraceId ⟨"what is argos", Mode.fast, 6, ""⟩ "fresh-id" = "fresh-id" := by
  decide

end Schemas

/-! ## Answer API orchestrator (`src/services/answer-api/main.py`, `answer`) -/

namespace AnswerApi

/-- The two fields of a validated retriever `Source` that the sentence loop
reads (`source_id` and `snippet`). -/
structure SourceRec where
  source_id : String
  snippet : String
  deriving Repr, DecidableEq

/-- Python `str.strip()` (whitespace from both ends). -/
def pyStrip (s : List Char) : List Char :=
  ((s.dropWhile isPyWs).reverse.dropWhile isPyWs).reverse

/-- Python `content.split(".")[0]`: the text before the first period, the
whole string when there is none. -/
def takeBeforeDot (s : List Char) : List Char :=
  s.takeWhile (fun c => c ≠ '.')

/-- `content.split(".")[0].strip()`: the candidate first sentence of a
snippet. -/
def firstSent (snippet : String) : String :=
  String.mk (pyStrip (takeBeforeDot snippet.toList))

/-- The claim's words for the kept sentence text: the text of the snippet
before the first period, with no stripping (written from the claim, for
comparison with `firstSent`). -/
def specFirstSent (snippet : String) : String :=
  String.mk (takeBeforeDot snippet.toList)

/-- A parsed verifier JSON response; each field optional as `dict.get`. -/
structure VerJson where
  label : Option String
  confidence : Option ℚ
  unsupported_spans : Option (List (Int × Int))
  deriving Repr, DecidableEq

/-- A validated `SentenceVerifierResult`. -/
structure SVR where
  label : String
  confidence : ℚ
  unsupported_spans : List (Int × Int)
  deriving Repr, DecidableEq

/-- Pydantic validation of `SentenceVerifierResult`: label must match the
shared pattern and confidence must lie in [0, 1]. -/
def mkSVR (l : String) (c : ℚ) (sp : List (Int × Int)) : Option SVR :=
  if Schemas.sentenceVerifierLabelOk l && decide (0 ≤ c) && decide (c ≤ 1) then
    some ⟨l, c, sp⟩
  else none

/-- The verifier-call block of the sentence loop: `none` models any failure
(transport error, non-success status, unparsable body); a parsed body is
validated with the `dict.get` defaults, and a validation failure falls into
the same `except`, so both produce the degraded
`unsupported`/0.0/full-sentence-span result. -/
def sentVerifier (sentLen : Nat) (outcome : Option VerJson) : SVR :=
  match outcome with
  | none => ⟨"unsupported", 0, [((0 : Int), (sentLen : Int))]⟩
  | some j =>
    match mkSVR (j.label.getD "unsupported") (j.confidence.getD (1/2))
        (j.unsupported_spans.getD []) with
    | some r => r
    | none => ⟨"unsupported", 0, [((0 : Int), (sentLen : Int))]⟩

/-- A produced `Sentence`: text (first sentence plus the restored period),
its single citation (source id, start 0, end = first-sentence length) and
the verifier result. -/
structure SentenceOut where
  text : String
  citation_source : String
  citation_end : Nat
  verifier : SVR
  deriving Repr, DecidableEq

/-- Build one `Sentence` from its kept source and its verifier-call
outcome. -/
def mkSent (src : SourceRec) (o : Option VerJson) : SentenceOut :=
  ⟨firstSent src.snippet ++ ".", src.source_id, (firstSent src.snippet).length,
   sentVerifier (firstSent src.snippet).length o⟩

/-- The sentence/citation/HTML loop of `answer`: sources in retrieval
order; a source whose stripped first sentence is empty is skipped; a new
`source_id` is assigned the next citation index (counter starts at 1) and a
recurring one reuses its index; each kept source contributes an HTML
fragment and a `Sentence`, consuming one verifier outcome. -/
def ansLoop (citMap : List (String × Nat)) (counter : Nat) :
    List SourceRec → List (Option VerJson) → List String × List SentenceOut
  | [], _ => ([], [])
  | src :: rest, oracle =>
    let fs := firstSent src.snippet
    if fs = "" then ansLoop citMap counter rest oracle
    else
      let idx := (citMap.lookup src.source_id).getD counter
      let citMap' := if (citMap.lookup src.source_id).isNone then
          citMap ++ [(src.source_id, counter)] else citMap
      let counter' := if (citMap.lookup src.source_id).isNone then counter + 1 else counter
      let pr := ansLoop citMap' counter' rest oracle.tail
      ((fs ++ " <sup>[" ++ toString idx ++ "]</sup>.") :: pr.1,
       mkSent src (oracle.headD none) :: pr.2)

/-- `answer`'s synthesis result: the final `answer_html` (fragments joined
by single spaces inside one paragraph tag) and the `Sentence` list, from
the retrieval-ordered sources and the per-kept-sentence verifier outcomes. -/
def buildAnswer (srcs : List SourceRec) (oracle : List (Option VerJson)) :
    String × List SentenceOut :=
  let pr := ansLoop [] 1 srcs oracle
  ("<p>" ++ String.intercalate " " pr.1 ++ "</p>", pr.2)

/-- The kept sources: those whose stripped first sentence is non-empty. -/
def keptSrcs (srcs : List SourceRec) : List SourceRec :=
  srcs.filter (fun s => firstSent s.snippet ≠ "")

/-- First occurrence of each element, in first-use order, skipping elements
already seen. -/
def firstUsesAux (seen : List String) : List String → List String
  | [] => []
  | x :: xs => if x ∈ seen then firstUsesAux seen xs else x :: firstUsesAux (x :: seen) xs

/-- The distinct elements of a list in first-use order. -/
def firstUses (l : List String) : List String :=
  firstUsesAux [] l

/-- The citation map as an association list: `seen[i] ↦ i + k`. -/
def seenAssocFrom (k : Nat) : List String → List (String × Nat)
  | [] => []
  | x :: xs => (x, k) :: seenAssocFrom (k + 1) xs

/-- Pad or truncate the oracle to one outcome per kept sentence. -/
def padTo (n : Nat) (l : List (Option VerJson)) : List (Option VerJson) :=
  l.take n ++ List.replicate (n - l.length) none

/-- The oracle-independent part of a `Sentence`. -/
def sentSkeleton (s : SentenceOut) : String × String × Nat :=
  (s.text, s.citation_source, s.citation_end)

theorem indexOf_cons_self (x : String) (l : List String) :
    (x :: l).indexOf x = 0 := by
  simp [List.indexOf_cons]

theorem indexOf_cons_ne (x y : String) (l : List String) (h : x ≠ y) :
    (x :: l).indexOf y = l.indexOf y + 1 := by
  simp only [List.indexOf_cons]
  rw [show (x == y) = false from beq_eq_false_iff_ne.mpr h]
  rfl

theorem indexOf_append_mem (sid : String) :
    ∀ (s1 : List String), sid ∈ s1 → ∀ s2, (s1 ++ s2).indexOf sid = s1.indexOf sid
  | [], h, _ => absurd h (by simp)
  | x :: xs, h, s2 => by
    by_cases hx : x = sid
    · subst hx
      simp [indexOf_cons_self]
    · have hmem : sid ∈ xs := by
        rcases List.mem_cons.mp h with rfl | hm
        · exact absurd rfl hx
        · exact hm
      rw [List.cons_append, indexOf_cons_ne x sid _ hx, indexOf_cons_ne x sid _ hx,
        indexOf_append_mem sid xs hmem s2]

theorem indexOf_append_not_mem (sid : String) :
    ∀ (s1 : List String), sid ∉ s1 → ∀ s2,
      (s1 ++ s2).indexOf sid = s1.length + s2.indexOf sid
  | [], _, s2 => by simp
  | x :: xs, h, s2 => by
    have hx : x ≠ sid := fun he => h (he ▸ List.mem_cons_self x xs)
    have hxs : sid ∉ xs := fun hm => h (List.mem_cons_of_mem x hm)
    rw [List.cons_append, indexOf_cons_ne x sid _ hx,
      indexOf_append_not_mem sid xs hxs s2, List.length_cons]
    omega

theorem lookup_seenAssocFrom (sid : String) :
    ∀ (seen : List String) (k : Nat),
      (seenAssocFrom k seen).lookup sid =
        if sid ∈ seen then some (seen.indexOf sid + k) else none
  | [], k => by simp [seenAssocFrom]
  | x :: xs, k => by
    by_cases hx : x = sid
    · subst hx
      simp [seenAssocFrom, List.lookup_cons, indexOf_cons_self]
    · have hbeq : (sid == x) = false := beq_eq_false_iff_ne.mpr (Ne.symm hx)
      rw [seenAssocFrom, List.lookup_cons, hbeq]
      simp only [cond_false]
      rw [lookup_seenAssocFrom sid xs (k + 1)]
      by_cases hmem : sid ∈ xs
      · rw [if_pos hmem, if_pos (List.mem_cons_of_mem x hmem),
          indexOf_cons_ne x sid _ hx]
        congr 1
        omega
      · rw [if_neg hmem, if_neg (by
          intro hm
          rcases List.mem_cons.mp hm with rfl | hm'
          · exact hx rfl
          · exact hmem hm')]

theorem seenAssocFrom_append :
    ∀ (s1 : List String) (k : Nat) (s2 : List String),
      seenAssocFrom k (s1 ++ s2) = seenAssocFrom k s1 ++ seenAssocFrom (k + s1.length) s2
  | [], k, s2 => by simp [seenAssocFrom]
  | x :: xs, k, s2 => by
    rw [List.cons_append, seenAssocFrom, seenAssocFrom, List.cons_append,
      seenAssocFrom_append xs (k + 1) s2, List.length_cons]
    have : k + 1 + xs.length = k + (xs.length + 1) := by omega
    rw [this]

theorem firstUsesAux_congr :
    ∀ (l s1 s2 : List String), (∀ x, x ∈ s1 ↔ x ∈ s2) →
      firstUsesAux s1 l = firstUsesAux s2 l
  | [], _, _, _ => rfl
  | x :: xs, s1, s2, h => by
    by_cases hm : x ∈ s1
    · rw [firstUsesAux, firstUsesAux, if_pos hm, if_pos ((h x).mp hm)]
      exact firstUsesAux_congr xs s1 s2 h
    · rw [firstUsesAux, firstUsesAux, if_neg hm, if_neg (fun hc => hm ((h x).mpr hc))]
      rw [firstUsesAux_congr xs (x :: s1) (x :: s2) (by
        intro y
        simp only [List.mem_cons]
        constructor <;> rintro (rfl | hy)
        · exact Or.inl rfl
        · exact Or.inr ((h y).mp hy)
        · exact Or.inl rfl
        · exact Or.inr ((h y).mpr hy))]

theorem mem_firstUsesAux {x : String} :
    ∀ {l seen : List String}, x ∈ firstUsesAux seen l → x ∈ l ∧ x ∉ seen
  | [], seen, h => by simp [firstUsesAux] at h
  | y :: ys, seen, h => by
    by_cases hm : y ∈ seen
    · rw [firstUsesAux, if_pos hm] at h
      rcases mem_firstUsesAux h with ⟨h1, h2⟩
      exact ⟨List.mem_cons_of_mem y h1, h2⟩
    · rw [firstUsesAux, if_neg hm] at h
      rcases List.mem_cons.mp h with rfl | h'
      · exact ⟨List.mem_cons_self _ _, hm⟩
      · rcases mem_firstUsesAux h' with ⟨h1, h2⟩
        refine ⟨List.mem_cons_of_mem y h1, fun hc => h2 (List.mem_cons_of_mem y hc)⟩

theorem firstUsesAux_nodup :
    ∀ (l seen : List String), (firstUsesAux seen l).Nodup
  | [], _ => List.nodup_nil
  | y :: ys, seen => by
    by_cases hm : y ∈ seen
    · rw [firstUsesAux, if_pos hm]
      exact firstUsesAux_nodup ys seen
    · rw [firstUsesAux, if_neg hm]
      refine List.nodup_cons.mpr ⟨?_, firstUsesAux_nodup ys (y :: seen)⟩
      intro hc
      exact (mem_firstUsesAux hc).2 (List.mem_cons_self _ _)

theorem padTo_succ (n : Nat) (l : List (Option VerJson)) :
    padTo (n + 1) l = l.headD none :: padTo n l.tail := by
  cases l with
  | nil => simp [padTo, List.replicate_succ]
  | cons o os => simp [padTo, List.take_succ_cons, Nat.succ_sub_succ]

theorem padTo_length (n : Nat) (l : List (Option VerJson)) :
    (padTo n l).length = n := by
  simp only [padTo, List.length_append, List.length_take, List.length_replicate]
  omega

/-- Characterization of the sentence loop, generalized over the already
assigned citation ids `seen`: the fragments use the first-use citation
index of each kept source, and the sentences pair each kept source with its
verifier outcome in call order. -/
theorem ansLoop_spec :
    ∀ (srcs : List SourceRec) (oracle : List (Option VerJson)) (seen : List String),
      ansLoop (seenAssocFrom 1 seen) (seen.length + 1) srcs oracle =
        ((keptSrcs srcs).map (fun src =>
           firstSent src.snippet ++ " <sup>[" ++
           toString ((seen ++ firstUsesAux seen
             ((keptSrcs srcs).map (fun s => s.source_id))).indexOf src.source_id + 1) ++
           "]</sup>."),
         ((keptSrcs srcs).zip (padTo (keptSrcs srcs).length oracle)).map
           (fun pr => mkSent pr.1 pr.2))
  | [], oracle, seen => by
    simp [ansLoop, keptSrcs]
  | src :: rest, oracle, seen => by
    by_cases hk : firstSent src.snippet = ""
    · have hkept : keptSrcs (src :: rest) = keptSrcs rest := by
        simp [keptSrcs, List.filter_cons, hk]
      simp only [ansLoop]
      rw [if_pos hk, hkept]
      exact ansLoop_spec rest oracle seen
    · have hkept : keptSrcs (src :: rest) = src :: keptSrcs rest := by
        simp [keptSrcs, List.filter_cons, hk]
      simp only [ansLoop]
      rw [if_neg hk, lookup_seenAssocFrom src.source_id seen 1]
      rw [hkept]
      simp only [List.map_cons, List.length_cons, padTo_succ, List.zip_cons_cons]
      by_cases hmem : src.source_id ∈ seen
      · rw [if_pos hmem]
        simp only [Option.getD_some, Option.isNone_some, Bool.false_eq_true, if_false]
        rw [ansLoop_spec rest oracle.tail seen]
        have hfua : firstUsesAux seen
            (src.source_id :: (keptSrcs rest).map (fun s => s.source_id)) =
            firstUsesAux seen ((keptSrcs rest).map (fun s => s.source_id)) := by
          rw [firstUsesAux, if_pos hmem]
        rw [hfua]
        have hidx : (seen ++ firstUsesAux seen
            ((keptSrcs rest).map (fun s => s.source_id))).indexOf src.source_id =
            seen.indexOf src.source_id :=
          indexOf_append_mem src.source_id seen hmem _
        rw [hidx]
      · rw [if_neg hmem]
        simp only [Option.getD_none, Option.isNone_none, if_true]
        have hassoc : seenAssocFrom 1 seen ++ [(src.source_id, seen.length + 1)] =
            seenAssocFrom 1 (seen ++ [src.source_id]) := by
          rw [seenAssocFrom_append]
          simp [seenAssocFrom, Nat.add_comm]
        have hlen : seen.length + 1 + 1 = (seen ++ [src.source_id]).length + 1 := by
          simp
        rw [hassoc, hlen, ansLoop_spec rest oracle.tail (seen ++ [src.source_id])]
        have hfua : firstUsesAux seen
            (src.source_id :: (keptSrcs rest).map (fun s => s.source_id)) =
            src.source_id :: firstUsesAux (src.source_id :: seen)
              ((keptSrcs rest).map (fun s => s.source_id)) := by
          rw [firstUsesAux, if_neg hmem]
        rw [hfua]
        have hidx : (seen ++ src.source_id :: firstUsesAux (src.source_id :: seen)
            ((keptSrcs rest).map (fun s => s.source_id))).indexOf src.source_id =
            seen.length := by
          rw [indexOf_append_not_mem src.source_id seen hmem, indexOf_cons_self]
          omega
        rw [hidx]
        have hlist : seen ++ src.source_id :: firstUsesAux (src.source_id :: seen)
            ((keptSrcs rest).map (fun s => s.source_id)) =
            (seen ++ [src.source_id]) ++ firstUsesAux (seen ++ [src.source_id])
              ((keptSrcs rest).map (fun s => s.source_id)) := by
          rw [firstUsesAux_congr ((keptSrcs rest).map (fun s => s.source_id))
            (src.source_id :: seen) (seen ++ [src.source_id]) (by
              intro x
              simp [List.mem_cons, List.mem_append, or_comm])]
          exact List.append_cons _ _ _
        rw [hlist]

/-- `buildAnswer` in closed form: fragments with first-use citation
indices, and one sentence per kept source paired with its verifier
outcome. -/
theorem buildAnswer_spec (srcs : List SourceRec) (oracle : List (Option VerJson)) :
    buildAnswer srcs oracle =
      ("<p>" ++ String.intercalate " " ((keptSrcs srcs).map (fun src =>
         firstSent src.snippet ++ " <sup>[" ++
         toString ((firstUses ((keptSrcs srcs).map (fun s => s.source_id))).indexOf
           src.source_id + 1) ++ "]</sup>.")) ++ "</p>",
       ((keptSrcs srcs).zip (padTo (keptSrcs srcs).length oracle)).map
         (fun pr => mkSent pr.1 pr.2)) := by
  have h : ansLoop [] 1 srcs oracle =
      ((keptSrcs srcs).map (fun src =>
         firstSent src.snippet ++ " <sup>[" ++
         toString ((firstUses ((keptSrcs srcs).map (fun s => s.source_id))).indexOf
           src.source_id + 1) ++ "]</sup>."),
       ((keptSrcs srcs).zip (padTo (keptSrcs srcs).length oracle)).map
         (fun pr => mkSent pr.1 pr.2)) := by
    have h0 := ansLoop_spec srcs oracle []
    simpa [seenAssocFrom, firstUses] using h0
  unfold buildAnswer
  rw [h]

theorem mem_firstUsesAux_of_mem :
    ∀ (l seen : List String) (x : String), x ∈ l → x ∉ seen → x ∈ firstUsesAux seen l
  | [], _, x, hx, _ => absurd hx (by simp)
  | y :: ys, seen, x, hx, hs => by
    by_cases hm : y ∈ seen
    · rw [firstUsesAux, if_pos hm]
      have hxy : x ≠ y := fun he => hs (he ▸ hm)
      have hx' : x ∈ ys := by
        rcases List.mem_cons.mp hx with rfl | h'
        · exact absurd rfl hxy
        · exact h'
      exact mem_firstUsesAux_of_mem ys seen x hx' hs
    · rw [firstUsesAux, if_neg hm]
      by_cases hxy : x = y
      · subst hxy
        exact List.mem_cons_self _ _
      · have hx' : x ∈ ys := by
          rcases List.mem_cons.mp hx with rfl | h'
          · exact absurd rfl hxy
          · exact h'
        refine List.mem_cons_of_mem y (mem_firstUsesAux_of_mem ys (y :: seen) x hx' ?_)
        intro hc
        rcases List.mem_cons.mp hc with rfl | h'
        · exact hxy rfl
        · exact hs h'

/-- Claim C6, amended: in every response `answer_html` is the paragraph tag
around the kept sentences' fragments joined by single spaces, where each
kept sentence's text is the snippet text before the first period STRIPPED
of surrounding whitespace (kept only if non-empty after stripping), and
each fragment carries the citation index of its source: one plus the
position of its `source_id` in the first-use-ordered list of distinct kept
`source_id`s, so indices are dense from 1 and a recurring `source_id`
reuses its index. -/
theorem C6_citation_indices (srcs : List SourceRec) (oracle : List (Option VerJson)) :
    (buildAnswer srcs oracle).1 =
      "<p>" ++ String.intercalate " " ((keptSrcs srcs).map (fun src =>
        firstSent src.snippet ++ " <sup>[" ++
        toString ((firstUses ((keptSrcs srcs).map (fun s => s.source_id))).indexOf
          src.source_id + 1) ++ "]</sup>.")) ++ "</p>" ∧
    (firstUses ((keptSrcs srcs).map (fun s => s.source_id))).Nodup ∧
    (∀ sid ∈ (keptSrcs srcs).map (fun s => s.source_id),
      sid ∈ firstUses ((keptSrcs srcs).map (fun s => s.source_id))) ∧
    (∀ sid ∈ firstUses ((keptSrcs srcs).map (fun s => s.source_id)),
      sid ∈ (keptSrcs srcs).map (fun s => s.source_id)) := by
  refine ⟨?_, firstUsesAux_nodup _ _, ?_, ?_⟩
  · rw [buildAnswer_spec]
  · intro sid h
    exact mem_firstUsesAux_of_mem _ [] sid h (by simp)
  · intro sid h
    exact (mem_firstUsesAux h).1

/-- Witness for C6's amended theorem: three sources, the first and third
sharing a `source_id`, get citation indices 1, 2 and again 1. -/
theorem C6_citation_indices_witness :
    (buildAnswer [⟨"s1", "a. x"⟩, ⟨"s2", "b. y"⟩, ⟨"s1", "c. z"⟩] []).1 =
      "<p>a <sup>[1]</sup>. b <sup>[2]</sup>. c <sup>[1]</sup>.</p>" := by
  rw [(C6_citation_indices [⟨"s1", "a. x"⟩, ⟨"s2", "b. y"⟩, ⟨"s1", "c. z"⟩] []).1]
  decide

/-- The claim's words for `answer_html`, written from the claim for
comparison: identical citation indexing, but the kept sentence text is the
snippet text before the first period with NO stripping, and emptiness is
tested before any stripping. -/
def specAnswerHtml (srcs : List SourceRec) : String :=
  "<p>" ++ String.intercalate " "
    ((srcs.filter (fun s => specFirstSent s.snippet ≠ "")).map (fun src =>
      specFirstSent src.snippet ++ " <sup>[" ++
      toString ((firstUses ((srcs.filter (fun s => specFirstSent s.snippet ≠ "")).map
        (fun s => s.source_id))).indexOf src.source_id + 1) ++ "]</sup>.")) ++ "</p>"

/-- Counterexample to claim C6 as stated: for the single snippet " x. y"
the code strips the pre-period text to "x", while the claim's fragment
keeps the leading space, so the produced `answer_html` differs from the
claim's. -/
theorem C6_counterexample :
    (buildAnswer [⟨"s1", " x. y"⟩] []).1 ≠ specAnswerHtml [⟨"s1", " x. y"⟩] := by
  decide

/-- Claim C4: a failed verifier call for one sentence (outcome `none`)
never fails the request — the sentence list still has one entry per kept
source, `answer_html` and every sentence's text and citation are unchanged
by verifier outcomes, and the affected sentence carries the degraded
result: label `unsupported`, confidence 0.0, and the single full-sentence
unsupported span. -/
theorem C4_verifier_failure_degrades (srcs : List SourceRec)
    (oracle oracle' : List (Option VerJson)) (i : Nat)
    (hi : i < (keptSrcs srcs).length)
    (hfail : (padTo (keptSrcs srcs).length oracle).getD i none = none) :
    (buildAnswer srcs oracle).2.length = (keptSrcs srcs).length ∧
    (buildAnswer srcs oracle).1 = (buildAnswer srcs oracle').1 ∧
    (buildAnswer srcs oracle).2.map sentSkeleton =
      (buildAnswer srcs oracle').2.map sentSkeleton ∧
    ((buildAnswer srcs oracle).2.getD i ⟨"", "", 0, ⟨"", 0, []⟩⟩).verifier =
      ⟨"unsupported", 0,
       [((0 : Int), ((firstSent ((keptSrcs srcs).getD i ⟨"", ""⟩).snippet).length : Int))]⟩ := by
  have hmapskel : ∀ orc : List (Option VerJson),
      (((keptSrcs srcs).zip (padTo (keptSrcs srcs).length orc)).map
        (fun pr => mkSent pr.1 pr.2)).map sentSkeleton =
      (keptSrcs srcs).map (fun src =>
        (firstSent src.snippet ++ ".", src.source_id, (firstSent src.snippet).length)) := by
    intro orc
    rw [List.map_map]
    have h1 : sentSkeleton ∘ (fun pr : SourceRec × Option VerJson => mkSent pr.1 pr.2) =
        (fun src : SourceRec =>
          (firstSent src.snippet ++ ".", src.source_id, (firstSent src.snippet).length)) ∘
          Prod.fst := rfl
    rw [h1, ← List.map_map, List.map_fst_zip _ _ (by rw [padTo_length])]
  rw [buildAnswer_spec srcs oracle, buildAnswer_spec srcs oracle']
  refine ⟨?_, rfl, ?_, ?_⟩
  · simp [padTo_length]
  · exact (hmapskel oracle).trans (hmapskel oracle').symm
  · have hlb : i < (((keptSrcs srcs).zip (padTo (keptSrcs srcs).length oracle)).map
        (fun pr => mkSent pr.1 pr.2)).length := by
      simpa [padTo_length] using hi
    rw [List.getD_eq_getElem _ _ hlb, List.getElem_map, List.getElem_zip]
    have hpi : i < (padTo (keptSrcs srcs).length oracle).length := by
      rw [padTo_length]; exact hi
    have hpad : (padTo (keptSrcs srcs).length oracle)[i] = none := by
      rw [← List.getD_eq_getElem _ none hpi]
      exact hfail
    rw [hpad, List.getD_eq_getElem _ _ hi]
    rfl

/-- Witness for C4: a single-source request whose only verifier call fails
still yields one sentence, identical html/skeleton to a no-oracle run, and
the degraded verifier result. -/
theorem C4_verifier_failure_degrades_witness :
    0 < (keptSrcs [⟨"s1", "hello world. tail"⟩]).length ∧
    (padTo (keptSrcs [⟨"s1", "hello world. tail"⟩]).length [none]).getD 0 none = none ∧
    ((buildAnswer [⟨"s1", "hello world. tail"⟩] [none]).2.length =
        (keptSrcs [⟨"s1", "hello world. tail"⟩]).length ∧
      (buildAnswer [⟨"s1", "hello world. tail"⟩] [none]).1 =
        (buildAnswer [⟨"s1", "hello world. tail"⟩] []).1 ∧
      (buildAnswer [⟨"s1", "hello world. tail"⟩] [none]).2.map sentSkeleton =
        (buildAnswer [⟨"s1", "hello world. tail"⟩] []).2.map sentSkeleton ∧
      ((buildAnswer [⟨"s1", "hello world. tail"⟩] [none]).2.getD 0
          ⟨"", "", 0, ⟨"", 0, []⟩⟩).verifier =
        ⟨"unsupported", 0,
         [((0 : Int),
           ((firstSent ((keptSrcs [⟨"s1", "hello world. tail"⟩]).getD 0
             ⟨"", ""⟩).snippet).length : Int))]⟩) :=
  ⟨by decide, by decide,
    C4_verifier_failure_degrades [⟨"s1", "hello world. tail"⟩] [none] [] 0
      (by decide) (by decide)⟩

end AnswerApi

/-! ## Nightly report generator (`src/eval/nightly_report.py`) -/

namespace Nightly

/-- A JSON value found in a snapshot object's field: a number, or any other
JSON value (null, string, list, object), which `sum` cannot add. -/
inductive JVal
  | num (q : ℚ)
  | other
  deriving Repr, DecidableEq

/-- The JSON value of one successfully `json.load`-ed file: an object with
the four metric fields each absent or holding some value, or any valid
JSON that is not an object (a list, a number, null, a string). -/
inductive JFile
  | obj (support_rate ner cr ece : Option JVal)
  | nonObj
  deriving Repr, DecidableEq

/-- `load_snapshots`: `none` models a logs directory that does not exist
(empty snapshot set); each file either fails `json.load` (`none`, silently
skipped by the `except: continue`) or yields its JSON value, which is
appended WHATEVER its shape — the `try` covers only the JSON parse, not
any snapshot-shape validation. -/
def load_snapshots (dir : Option (List (Option JFile))) : List JFile :=
  match dir with
  | none => []
  | some files => files.filterMap id

/-- One term `s.get(field, 0.0)` of an aggregation sum: the default 0.0
when the field is absent, the number when it holds one, and `none` — a
TypeError once `sum` adds it — when it holds a non-numeric value. -/
def getNum (v : Option JVal) : Option ℚ :=
  match v with
  | none => some 0
  | some (JVal.num q) => some q
  | some JVal.other => none

/-- `s.get("support_rate", 0.0)`: on a non-object snapshot the attribute
access itself raises (AttributeError), modelled as `none`. -/
def snapSR : JFile → Option ℚ
  | JFile.obj sr _ _ _ => getNum sr
  | JFile.nonObj => none

/-- `s.get("ner", 0.0)`, with the same failure modes as `snapSR`. -/
def snapNER : JFile → Option ℚ
  | JFile.obj _ n _ _ => getNum n
  | JFile.nonObj => none

/-- `s.get("cr", 0.0)`, with the same failure modes as `snapSR`. -/
def snapCR : JFile → Option ℚ
  | JFile.obj _ _ c _ => getNum c
  | JFile.nonObj => none

/-- `s.get("ece", 0.0)`, with the same failure modes as `snapSR`. -/
def snapECE : JFile → Option ℚ
  | JFile.obj _ _ _ e => getNum e
  | JFile.nonObj => none

/-- `sum(f(s) for s in snaps)`: the sum when every term is a number,
`none` (an uncaught exception) when any term raises. -/
def sumQ (f : JFile → Option ℚ) (snaps : List JFile) : Option ℚ :=
  (snaps.mapM f).map List.sum

/-- The four aggregated metrics of the report. -/
structure Aggregates where
  swa : ℚ
  ner : ℚ
  cr : ℚ
  ece : ℚ
  deriving Repr, DecidableEq

/-- `aggregate_metrics`: all zeros for an empty snapshot list (returned
before any field is read); otherwise the independent per-field arithmetic
means, or `none` — the run aborts with an uncaught AttributeError or
TypeError — when any kept snapshot is not an object or holds a
non-numeric metric field. -/
def aggregate_metrics (snaps : List JFile) : Option Aggregates :=
  if snaps.isEmpty then some ⟨0, 0, 0, 0⟩
  else
    match sumQ snapSR snaps, sumQ snapNER snaps, sumQ snapCR snaps, sumQ snapECE snaps with
    | some a, some b, some c, some d =>
      some ⟨a / (snaps.length : ℚ), b / (snaps.length : ℚ),
            c / (snaps.length : ℚ), d / (snaps.length : ℚ)⟩
    | _, _, _, _ => none

/-- Claim C8 meets the code: a file whose content is valid JSON but not a
metrics object — the array [1, 2], say, or an object with a null field —
survives `load_snapshots` (whose `except` guards only `json.load`) and
makes `aggregate_metrics` raise, aborting the run, contradicting the
claim that bad snapshot input never fails the generator.  The claim's
other legs hold: a missing directory yields the empty set, a
`json.load` failure is skipped, zero snapshots aggregate to all zeros,
and well-formed snapshots aggregate to per-field means. -/
theorem C8_crash_on_valid_json_non_snapshot :
    load_snapshots (some [some JFile.nonObj]) = [JFile.nonObj] ∧
    aggregate_metrics (load_snapshots (some [some JFile.nonObj])) = none ∧
    aggregate_metrics
      (load_snapshots (some [some (JFile.obj (some JVal.other) none none none)])) = none ∧
    load_snapshots none = [] ∧
    load_snapshots (some [none]) = [] ∧
    aggregate_metrics (load_snapshots (some [none])) = some ⟨0, 0, 0, 0⟩ ∧
    aggregate_metrics [JFile.obj (some (JVal.num (1/2))) none (some (JVal.num 0)) none] =
      some ⟨(1/2 + 0) / ((1 : Nat) : ℚ), (0 + 0) / ((1 : Nat) : ℚ),
            (0 + 0) / ((1 : Nat) : ℚ), (0 + 0) / ((1 : Nat) : ℚ)⟩ :=
  ⟨rfl, rfl, rfl, rfl, rfl, rfl, rfl⟩

end Nightly

end Argos
